import Mathlib

/-!
Verification of the Rocket `contrib` UUID parameter adapter
(`src/contrib/src/uuid.rs`) against its specification.

The adapter wraps a UUID value from the external `uuid` crate and
implements the framework hooks `FromParam`, `FromFormValue`, `FromStr`,
`Display`, `PartialEq<Uuid>` and derived `Ord`.  The external crate's
parsing, rendering and ordering routines are not part of the repository;
they are modelled here from the specification's contract.  Strings are
embedded as `List Char`.
-/

namespace RocketUuid

instance {ε α : Type} [DecidableEq ε] [DecidableEq α] : DecidableEq (Except ε α) := fun x y =>
  match x, y with
  | Except.ok a, Except.ok b => decidable_of_iff (a = b) (by simp)
  | Except.ok _, Except.error _ => isFalse (fun h => Except.noConfusion h)
  | Except.error _, Except.ok _ => isFalse (fun h => Except.noConfusion h)
  | Except.error a, Except.error b => decidable_of_iff (a = b) (by simp)

/-- Whether a character is a hexadecimal digit, accepted case-insensitively. -/
def isHexDigit (c : Char) : Bool :=
  decide (('0'.toNat ≤ c.toNat ∧ c.toNat ≤ '9'.toNat) ∨
          ('a'.toNat ≤ c.toNat ∧ c.toNat ≤ 'f'.toNat) ∨
          ('A'.toNat ≤ c.toNat ∧ c.toNat ≤ 'F'.toNat))

/-- Numeric value of a hexadecimal digit character. -/
def hexVal (c : Char) : Nat :=
  if '0'.toNat ≤ c.toNat ∧ c.toNat ≤ '9'.toNat then c.toNat - '0'.toNat
  else if 'a'.toNat ≤ c.toNat ∧ c.toNat ≤ 'f'.toNat then c.toNat - 'a'.toNat + 10
  else c.toNat - 'A'.toNat + 10

/-- Lowercase hexadecimal digit character for a value below 16. -/
def hexDigitLower (n : Nat) : Char :=
  if n < 10 then Char.ofNat ('0'.toNat + n) else Char.ofNat ('a'.toNat + n - 10)

/-- Modelled from the spec: the structured parse error owned by the external
`uuid` crate (`uuid_ext::ParseError`, re-exported as `UuidParseError`).  The
spec lists the malformation kinds: invalid length with the offending length,
invalid character at a position, wrong grouping. -/
inductive ParseError where
  | InvalidLength : Nat → ParseError
  | InvalidCharacter : Char → Nat → ParseError
  | InvalidGroups : Nat → ParseError
  | InvalidGroupLength : Nat → Nat → Nat → ParseError
deriving DecidableEq, Repr

/-- Modelled from the spec: the external `uuid` crate's UUID value, a 128-bit
value represented as a 16-byte sequence. -/
structure Uuid where
  bytes : List Nat
deriving DecidableEq, Repr

/-- A `Uuid` value as the external crate would actually produce it:
16 bytes, each below 256. -/
def ValidUuid (v : Uuid) : Prop :=
  v.bytes.length = 16 ∧ ∀ b ∈ v.bytes, b < 256

instance (v : Uuid) : Decidable (ValidUuid v) := by
  unfold ValidUuid; infer_instance

/-- Decodes consecutive pairs of hexadecimal digit characters into bytes;
`none` if a character is not a hexadecimal digit or the length is odd. -/
def hexPairsToBytes : List Char → Option (List Nat)
  | [] => some []
  | [_] => none
  | c1 :: c2 :: rest =>
      if isHexDigit c1 && isHexDigit c2 then
        (hexPairsToBytes rest).map (fun bs => (hexVal c1 * 16 + hexVal c2) :: bs)
      else none

/-- Takes a group of exactly `n` characters, returning it and the remainder. -/
def takeGroup (n : Nat) (s : List Char) : Option (List Char × List Char) :=
  if (s.take n).length = n then some (s.take n, s.drop n) else none

/-- Consumes a single leading hyphen. -/
def expectHyphen : List Char → Option (List Char)
  | '-' :: r => some r
  | _ => none

/-- Strips the hyphens of a `8-4-4-4-12` grouped string, returning the 32
remaining characters; `none` if the grouping is malformed. -/
def dehyph (s : List Char) : Option (List Char) := do
  let (g1, r) ← takeGroup 8 s
  let r ← expectHyphen r
  let (g2, r) ← takeGroup 4 r
  let r ← expectHyphen r
  let (g3, r) ← takeGroup 4 r
  let r ← expectHyphen r
  let (g4, r) ← takeGroup 4 r
  let r ← expectHyphen r
  let (g5, r) ← takeGroup 12 r
  if r.isEmpty then some (g1 ++ g2 ++ g3 ++ g4 ++ g5) else none

/-- Modelled from the spec: the structured diagnosis for an input of
acceptable length that still fails to parse — an invalid character at its
position, otherwise a malformed grouping. -/
def firstProblem (s : List Char) : ParseError :=
  match s.findIdx? (fun c => !(isHexDigit c || c == '-')) with
  | some i => ParseError.InvalidCharacter (s.getD i ' ') i
  | none => ParseError.InvalidGroupLength 0 0 0

/-- Modelled from the spec: the external `uuid` crate's parse routine
(`uuid_ext::Uuid::from_str`), which is not part of the repository.  Per the
spec it succeeds iff the input is 32 hexadecimal digits, optionally grouped
with hyphens as `8-4-4-4-12`, case-insensitive; any other length fails with
`InvalidLength` citing the offending length. -/
def Uuid.parse_str (s : List Char) : Except ParseError Uuid :=
  if s.length = 32 then
    match hexPairsToBytes s with
    | some bs => Except.ok ⟨bs⟩
    | none => Except.error (firstProblem s)
  else if s.length = 36 then
    match dehyph s with
    | some hex =>
        match hexPairsToBytes hex with
        | some bs => Except.ok ⟨bs⟩
        | none => Except.error (firstProblem s)
    | none => Except.error (firstProblem s)
  else Except.error (ParseError.InvalidLength s.length)

/-- Renders a byte as two lowercase hexadecimal digit characters. -/
def byteToHex (b : Nat) : List Char :=
  [hexDigitLower (b / 16), hexDigitLower (b % 16)]

/-- Renders a byte sequence as lowercase hexadecimal digit characters. -/
def bytesToHex (bs : List Nat) : List Char :=
  (bs.map byteToHex).flatten

/-- Modelled from the spec: the external `uuid` crate's `Display` rendering,
the canonical 36-character lowercase hyphenated `8-4-4-4-12` form. -/
def Uuid.to_string (v : Uuid) : List Char :=
  bytesToHex (v.bytes.take 4) ++ '-' ::
  (bytesToHex ((v.bytes.drop 4).take 2) ++ '-' ::
  (bytesToHex ((v.bytes.drop 6).take 2) ++ '-' ::
  (bytesToHex ((v.bytes.drop 8).take 2) ++ '-' ::
  bytesToHex (v.bytes.drop 10))))

/-- Lexicographic byte-wise comparison. -/
def bytesCmp : List Nat → List Nat → Ordering
  | [], [] => Ordering.eq
  | [], _ :: _ => Ordering.lt
  | _ :: _, [] => Ordering.gt
  | a :: as, b :: bs =>
      if a < b then Ordering.lt else if b < a then Ordering.gt else bytesCmp as bs

/-- Modelled from the spec: the external `uuid` crate's total order on UUID
values, byte-wise per its derived `Ord`. -/
def Uuid.cmp (a b : Uuid) : Ordering :=
  bytesCmp a.bytes b.bytes

/-- The adapter type `pub struct UUID(uuid_ext::Uuid)` from
`src/contrib/src/uuid.rs`. -/
structure UUID where
  val : Uuid
deriving DecidableEq, Repr

/-- Embeds `UUID::into_inner`: `pub fn into_inner(self) -> uuid_ext::Uuid { self.0 }`. -/
def UUID.into_inner (u : UUID) : Uuid := u.val

/-- Embeds the `Display` impl for `UUID`, which delegates to the inner value:
`self.0.fmt(f)`. -/
def UUID.to_string (u : UUID) : List Char := u.val.to_string

/-- Embeds the `FromStr` impl for `UUID`:
`fn from_str(s: &str) -> Result<UUID, Self::Err> { Ok(UUID(try!(s.parse()))) }`,
where `s.parse()` is the external crate's `Uuid::from_str`. -/
def UUID.from_str (s : List Char) : Except ParseError UUID :=
  (Uuid.parse_str s).map UUID.mk

/-- Embeds the `FromParam` impl for `UUID`:
`fn from_param(param: &RawStr) -> Result<UUID, Self::Error> { param.parse() }`,
where `param.parse::<UUID>()` invokes `UUID::from_str`. -/
def UUID.from_param (s : List Char) : Except ParseError UUID :=
  UUID.from_str s

/-- Embeds the `FromFormValue` impl for `UUID`:
`fn from_form_value(form_value: &RawStr) -> ... { form_value.parse().map_err(|_| form_value) }`. -/
def UUID.from_form_value (s : List Char) : Except (List Char) UUID :=
  (UUID.from_str s).mapError (fun _ => s)

/-- Embeds the `PartialEq<uuid_ext::Uuid>` impl for `UUID`:
`fn eq(&self, other: &uuid_ext::Uuid) -> bool { self.0.eq(other) }`. -/
def UUID.eqUuid (w : UUID) (u : Uuid) : Bool :=
  decide (w.val = u)

/-- Embeds the derived `Ord` on the newtype `UUID(uuid_ext::Uuid)`, which
compares its single field with the inner value's order. -/
def UUID.cmp (a b : UUID) : Ordering :=
  Uuid.cmp a.val b.val

/-- A group of exactly `n` hexadecimal digit characters, per the spec's
textual grammar. -/
def hexGroup (g : List Char) (n : Nat) : Prop :=
  g.length = n ∧ ∀ c ∈ g, isHexDigit c = true

instance (g : List Char) (n : Nat) : Decidable (hexGroup g n) := by
  unfold hexGroup; infer_instance

/-- A syntactically valid UUID string in canonical hyphenated form:
hexadecimal digit groups of sizes `8-4-4-4-12` separated by hyphens. -/
def canonicalHyphenated (s : List Char) : Prop :=
  ∃ g1 g2 g3 g4 g5 : List Char,
    hexGroup g1 8 ∧ hexGroup g2 4 ∧ hexGroup g3 4 ∧ hexGroup g4 4 ∧ hexGroup g5 12 ∧
    s = g1 ++ '-' :: (g2 ++ '-' :: (g3 ++ '-' :: (g4 ++ '-' :: g5)))

/-- The spec's canonical UUID textual grammar: 32 hexadecimal digits,
optionally grouped with hyphens as `8-4-4-4-12`, case-insensitive. -/
def validUuidString (s : List Char) : Prop :=
  (s.length = 32 ∧ ∀ c ∈ s, isHexDigit c = true) ∨ canonicalHyphenated s

/-- The canonical test string used throughout the repository's unit tests. -/
def strA : List Char := "c1aa1e3b-9614-4895-9ebd-705255fa5bc2".toList

/-- The byte sequence the test string decodes to. -/
def bytesA : List Nat :=
  [0xc1, 0xaa, 0x1e, 0x3b, 0x96, 0x14, 0x48, 0x95,
   0x9e, 0xbd, 0x70, 0x52, 0x55, 0xfa, 0x5b, 0xc2]

/-- The underlying UUID value of the test string. -/
def uuidA : Uuid := ⟨bytesA⟩

/-! Character-level lemmas about hexadecimal digits. -/

theorem isHexDigit_iff {c : Char} :
    isHexDigit c = true ↔
      (48 ≤ c.toNat ∧ c.toNat ≤ 57) ∨ (97 ≤ c.toNat ∧ c.toNat ≤ 102) ∨
      (65 ≤ c.toNat ∧ c.toNat ≤ 70) := by
  unfold isHexDigit
  rw [decide_eq_true_iff]
  exact Iff.rfl

theorem hexVal_lt (c : Char) (h : isHexDigit c = true) : hexVal c < 16 := by
  rw [isHexDigit_iff] at h
  simp only [hexVal, show '0'.toNat = 48 from rfl, show '9'.toNat = 57 from rfl,
    show 'a'.toNat = 97 from rfl, show 'f'.toNat = 102 from rfl,
    show 'A'.toNat = 65 from rfl]
  split_ifs <;> omega

theorem isHexDigit_hexDigitLower (n : Nat) (h : n < 16) :
    isHexDigit (hexDigitLower n) = true := by
  interval_cases n <;> decide

theorem hexVal_hexDigitLower (n : Nat) (h : n < 16) :
    hexVal (hexDigitLower n) = n := by
  interval_cases n <;> decide

theorem hexDigitLower_hexVal (c : Char) (h : isHexDigit c = true) :
    hexDigitLower (hexVal c) = c.toLower := by
  rw [isHexDigit_iff] at h
  rcases h with ⟨h1, h2⟩ | ⟨h1, h2⟩ | ⟨h1, h2⟩
  · have hv : hexVal c = c.toNat - 48 := by
      simp only [hexVal, show '0'.toNat = 48 from rfl, show '9'.toNat = 57 from rfl]
      rw [if_pos ⟨h1, h2⟩]
    rw [hv]
    simp only [hexDigitLower, Char.toLower, show '0'.toNat = 48 from rfl,
      show 'a'.toNat = 97 from rfl]
    rw [if_pos (show c.toNat - 48 < 10 by omega),
      if_neg (show ¬(c.toNat ≥ 65 ∧ c.toNat ≤ 90) by omega),
      show 48 + (c.toNat - 48) = c.toNat by omega, Char.ofNat_toNat]
  · have hv : hexVal c = c.toNat - 97 + 10 := by
      simp only [hexVal, show '0'.toNat = 48 from rfl, show '9'.toNat = 57 from rfl,
        show 'a'.toNat = 97 from rfl, show 'f'.toNat = 102 from rfl]
      rw [if_neg (show ¬(48 ≤ c.toNat ∧ c.toNat ≤ 57) by omega), if_pos ⟨h1, h2⟩]
    rw [hv]
    simp only [hexDigitLower, Char.toLower, show '0'.toNat = 48 from rfl,
      show 'a'.toNat = 97 from rfl]
    rw [if_neg (show ¬(c.toNat - 97 + 10 < 10) by omega),
      if_neg (show ¬(c.toNat ≥ 65 ∧ c.toNat ≤ 90) by omega),
      show 97 + (c.toNat - 97 + 10) - 10 = c.toNat by omega, Char.ofNat_toNat]
  · have hv : hexVal c = c.toNat - 65 + 10 := by
      simp only [hexVal, show '0'.toNat = 48 from rfl, show '9'.toNat = 57 from rfl,
        show 'a'.toNat = 97 from rfl, show 'f'.toNat = 102 from rfl,
        show 'A'.toNat = 65 from rfl]
      rw [if_neg (show ¬(48 ≤ c.toNat ∧ c.toNat ≤ 57) by omega),
        if_neg (show ¬(97 ≤ c.toNat ∧ c.toNat ≤ 102) by omega)]
    rw [hv]
    simp only [hexDigitLower, Char.toLower, show '0'.toNat = 48 from rfl,
      show 'a'.toNat = 97 from rfl]
    rw [if_neg (show ¬(c.toNat - 65 + 10 < 10) by omega),
      if_pos (show c.toNat ≥ 65 ∧ c.toNat ≤ 90 by omega),
      show 97 + (c.toNat - 65 + 10) - 10 = c.toNat + 32 by omega]

theorem byteToHex_pair (a b : Nat) (hb : b < 16) :
    byteToHex (a * 16 + b) = [hexDigitLower a, hexDigitLower b] := by
  unfold byteToHex
  rw [show (a * 16 + b) / 16 = a by omega, show (a * 16 + b) % 16 = b by omega]

/-! Lemmas about pairwise hexadecimal decoding and encoding. -/

theorem twoStep {P : List Char → Prop} (h0 : P []) (h1 : ∀ c, P [c])
    (h2 : ∀ c1 c2 rest, P rest → P (c1 :: c2 :: rest)) : ∀ s, P s
  | [] => h0
  | [c] => h1 c
  | c1 :: c2 :: rest => h2 c1 c2 rest (twoStep h0 h1 h2 rest)

theorem bytesToHex_nil : bytesToHex [] = [] := rfl

theorem bytesToHex_cons (b : Nat) (bs : List Nat) :
    bytesToHex (b :: bs) = hexDigitLower (b / 16) :: hexDigitLower (b % 16) :: bytesToHex bs := by
  simp [bytesToHex, byteToHex]

theorem bytesToHex_append (a b : List Nat) :
    bytesToHex (a ++ b) = bytesToHex a ++ bytesToHex b := by
  simp [bytesToHex]

theorem bytesToHex_length (bs : List Nat) :
    (bytesToHex bs).length = 2 * bs.length := by
  induction bs with
  | nil => rfl
  | cons b bs ih => rw [bytesToHex_cons]; simp [ih]; omega

theorem hexPairsToBytes_sound : ∀ (s : List Char) (bs : List Nat),
    hexPairsToBytes s = some bs →
    (∀ c ∈ s, isHexDigit c = true) ∧ s.length = 2 * bs.length ∧
    (∀ b ∈ bs, b < 256) ∧ bytesToHex bs = s.map Char.toLower
  | [], bs, h => by
      simp only [hexPairsToBytes] at h
      cases h
      refine ⟨by simp, rfl, by simp, rfl⟩
  | [c], bs, h => by
      simp only [hexPairsToBytes] at h
      exact Option.noConfusion h
  | c1 :: c2 :: rest, bs, h => by
      simp only [hexPairsToBytes] at h
      by_cases hcs : isHexDigit c1 && isHexDigit c2
      · rw [if_pos hcs] at h
        cases hrest : hexPairsToBytes rest with
        | none => rw [hrest] at h; exact Option.noConfusion h
        | some bs' =>
            rw [hrest] at h
            simp only [Option.map_some'] at h
            cases h
            have h1 : isHexDigit c1 = true := by
              rcases Bool.and_eq_true_iff.mp hcs with ⟨x, _⟩; exact x
            have h2 : isHexDigit c2 = true := by
              rcases Bool.and_eq_true_iff.mp hcs with ⟨_, x⟩; exact x
            obtain ⟨ihh, ihl, ihb, ihr⟩ := hexPairsToBytes_sound rest bs' hrest
            refine ⟨?_, ?_, ?_, ?_⟩
            · intro c hc
              rcases List.mem_cons.mp hc with rfl | hc
              · exact h1
              · rcases List.mem_cons.mp hc with rfl | hc
                · exact h2
                · exact ihh c hc
            · simp only [List.length_cons, ihl]; omega
            · intro b hb
              rcases List.mem_cons.mp hb with rfl | hb
              · have v1 := hexVal_lt c1 h1
                have v2 := hexVal_lt c2 h2
                omega
              · exact ihb b hb
            · rw [bytesToHex_cons]
              have v1 := hexVal_lt c1 h1
              have v2 := hexVal_lt c2 h2
              rw [show (hexVal c1 * 16 + hexVal c2) / 16 = hexVal c1 by omega,
                show (hexVal c1 * 16 + hexVal c2) % 16 = hexVal c2 by omega,
                hexDigitLower_hexVal c1 h1, hexDigitLower_hexVal c2 h2, ihr]
              simp
      · rw [if_neg hcs] at h
        exact Option.noConfusion h

theorem hexPairsToBytes_complete : ∀ bs : List Nat, (∀ b ∈ bs, b < 256) →
    hexPairsToBytes (bytesToHex bs) = some bs := by
  intro bs
  induction bs with
  | nil => intro _; rfl
  | cons b bs ih =>
      intro hb
      have hblt : b < 256 := hb b (by simp)
      have hd : b / 16 < 16 := by omega
      have hm : b % 16 < 16 := by omega
      rw [bytesToHex_cons]
      simp only [hexPairsToBytes, isHexDigit_hexDigitLower _ hd,
        isHexDigit_hexDigitLower _ hm, Bool.and_self, if_pos,
        ih (fun x hx => hb x (by simp [hx]))]
      simp only [Option.map_some', Option.some.injEq]
      rw [hexVal_hexDigitLower _ hd, hexVal_hexDigitLower _ hm]
      congr 1
      omega

theorem hexPairsToBytes_append : ∀ (s t : List Char) (a b : List Nat),
    hexPairsToBytes s = some a → hexPairsToBytes t = some b →
    hexPairsToBytes (s ++ t) = some (a ++ b)
  | [], t, a, b, ha, hb => by
      simp only [hexPairsToBytes] at ha
      cases ha
      simpa using hb
  | [c], t, a, b, ha, hb => by
      simp only [hexPairsToBytes] at ha
      exact Option.noConfusion ha
  | c1 :: c2 :: rest, t, a, b, ha, hb => by
      simp only [List.cons_append, hexPairsToBytes, List.append_eq] at ha ⊢
      by_cases hcs : isHexDigit c1 && isHexDigit c2
      · rw [if_pos hcs] at ha ⊢
        cases hrest : hexPairsToBytes rest with
        | none => rw [hrest] at ha; exact Option.noConfusion ha
        | some a' =>
            rw [hrest] at ha
            simp only [Option.map_some'] at ha
            cases ha
            rw [hexPairsToBytes_append rest t a' b hrest hb]
            simp
      · rw [if_neg hcs] at ha
        exact Option.noConfusion ha

theorem hexPairsToBytes_append_inv : ∀ (s t : List Char) (bs : List Nat),
    s.length % 2 = 0 → hexPairsToBytes (s ++ t) = some bs →
    ∃ a b, hexPairsToBytes s = some a ∧ hexPairsToBytes t = some b ∧
      bs = a ++ b ∧ 2 * a.length = s.length
  | [], t, bs, _, h => ⟨[], bs, rfl, by simpa using h, by simp, by simp⟩
  | [c], t, bs, hev, h => by simp at hev
  | c1 :: c2 :: rest, t, bs, hev, h => by
      simp only [List.cons_append, hexPairsToBytes, List.append_eq] at h
      by_cases hcs : isHexDigit c1 && isHexDigit c2
      · rw [if_pos hcs] at h
        cases hrt : hexPairsToBytes (rest ++ t) with
        | none => rw [hrt] at h; exact Option.noConfusion h
        | some bs' =>
            rw [hrt] at h
            simp only [Option.map_some'] at h
            cases h
            have hev' : rest.length % 2 = 0 := by
              simp only [List.length_cons] at hev; omega
            obtain ⟨a, b, ha, hb, rfl, hl⟩ :=
              hexPairsToBytes_append_inv rest t bs' hev' hrt
            refine ⟨(hexVal c1 * 16 + hexVal c2) :: a, b, ?_, hb, by simp, ?_⟩
            · simp only [hexPairsToBytes, if_pos hcs, ha, Option.map_some']
            · simp only [List.length_cons]; omega
      · rw [if_neg hcs] at h
        exact Option.noConfusion h

/-! Lemmas about the hyphen-grouping structure. -/

theorem takeGroup_append {n : Nat} {g r : List Char} (h : g.length = n) :
    takeGroup n (g ++ r) = some (g, r) := by
  unfold takeGroup
  rw [List.take_left' h, List.drop_left' h, if_pos h]

theorem takeGroup_exact {n : Nat} {g : List Char} (h : g.length = n) :
    takeGroup n g = some (g, []) := by
  have hx := takeGroup_append (r := []) h
  rwa [List.append_nil] at hx

theorem takeGroup_eq_some {n : Nat} {s g r : List Char} (h : takeGroup n s = some (g, r)) :
    s = g ++ r ∧ g.length = n := by
  unfold takeGroup at h
  by_cases hc : (s.take n).length = n
  · rw [if_pos hc] at h
    cases h
    exact ⟨(List.take_append_drop n s).symm, hc⟩
  · rw [if_neg hc] at h
    exact Option.noConfusion h

theorem expectHyphen_cons (r : List Char) : expectHyphen ('-' :: r) = some r := rfl

theorem expectHyphen_eq_some {s r : List Char} (h : expectHyphen s = some r) :
    s = '-' :: r := by
  unfold expectHyphen at h
  split at h
  · cases h; rfl
  · exact Option.noConfusion h

theorem dehyph_of_shape (g1 g2 g3 g4 g5 : List Char)
    (h1 : g1.length = 8) (h2 : g2.length = 4) (h3 : g3.length = 4)
    (h4 : g4.length = 4) (h5 : g5.length = 12) :
    dehyph (g1 ++ '-' :: (g2 ++ '-' :: (g3 ++ '-' :: (g4 ++ '-' :: g5)))) =
      some (g1 ++ g2 ++ g3 ++ g4 ++ g5) := by
  simp only [dehyph, takeGroup_append h1, takeGroup_append h2, takeGroup_append h3,
    takeGroup_append h4, takeGroup_exact h5, expectHyphen_cons, Option.bind_eq_bind,
    Option.some_bind, List.isEmpty_nil, if_true]

theorem dehyph_shape {s hex : List Char} (h : dehyph s = some hex) :
    ∃ g1 g2 g3 g4 g5 : List Char,
      g1.length = 8 ∧ g2.length = 4 ∧ g3.length = 4 ∧ g4.length = 4 ∧ g5.length = 12 ∧
      s = g1 ++ '-' :: (g2 ++ '-' :: (g3 ++ '-' :: (g4 ++ '-' :: g5))) ∧
      hex = g1 ++ g2 ++ g3 ++ g4 ++ g5 := by
  unfold dehyph at h
  cases ht1 : takeGroup 8 s with
  | none => rw [ht1] at h; exact Option.noConfusion h
  | some p1 =>
  obtain ⟨g1, r1⟩ := p1
  rw [ht1] at h
  simp only [Option.bind_eq_bind, Option.some_bind] at h
  cases he1 : expectHyphen r1 with
  | none => rw [he1] at h; exact Option.noConfusion h
  | some r2 =>
  rw [he1] at h
  simp only [Option.some_bind] at h
  cases ht2 : takeGroup 4 r2 with
  | none => rw [ht2] at h; exact Option.noConfusion h
  | some p2 =>
  obtain ⟨g2, r3⟩ := p2
  rw [ht2] at h
  simp only [Option.some_bind] at h
  cases he2 : expectHyphen r3 with
  | none => rw [he2] at h; exact Option.noConfusion h
  | some r4 =>
  rw [he2] at h
  simp only [Option.some_bind] at h
  cases ht3 : takeGroup 4 r4 with
  | none => rw [ht3] at h; exact Option.noConfusion h
  | some p3 =>
  obtain ⟨g3, r5⟩ := p3
  rw [ht3] at h
  simp only [Option.some_bind] at h
  cases he3 : expectHyphen r5 with
  | none => rw [he3] at h; exact Option.noConfusion h
  | some r6 =>
  rw [he3] at h
  simp only [Option.some_bind] at h
  cases ht4 : takeGroup 4 r6 with
  | none => rw [ht4] at h; exact Option.noConfusion h
  | some p4 =>
  obtain ⟨g4, r7⟩ := p4
  rw [ht4] at h
  simp only [Option.some_bind] at h
  cases he4 : expectHyphen r7 with
  | none => rw [he4] at h; exact Option.noConfusion h
  | some r8 =>
  rw [he4] at h
  simp only [Option.some_bind] at h
  cases ht5 : takeGroup 12 r8 with
  | none => rw [ht5] at h; exact Option.noConfusion h
  | some p5 =>
  obtain ⟨g5, r9⟩ := p5
  rw [ht5] at h
  simp only [Option.some_bind] at h
  by_cases hr9 : r9.isEmpty
  · rw [if_pos hr9] at h
    cases h
    have hr9' : r9 = [] := List.isEmpty_eq_true.mp hr9
    obtain ⟨hs1, hl1⟩ := takeGroup_eq_some ht1
    have hr1 := expectHyphen_eq_some he1
    obtain ⟨hs2, hl2⟩ := takeGroup_eq_some ht2
    have hr3 := expectHyphen_eq_some he2
    obtain ⟨hs3, hl3⟩ := takeGroup_eq_some ht3
    have hr5 := expectHyphen_eq_some he3
    obtain ⟨hs4, hl4⟩ := takeGroup_eq_some ht4
    have hr7 := expectHyphen_eq_some he4
    obtain ⟨hs5, hl5⟩ := takeGroup_eq_some ht5
    subst hr9'
    rw [List.append_nil] at hs5
    refine ⟨g1, g2, g3, g4, g5, hl1, hl2, hl3, hl4, hl5, ?_, rfl⟩
    rw [hs1, hr1, hs2, hr3, hs3, hr5, hs4, hr7, hs5]
  · rw [if_neg hr9] at h
    exact Option.noConfusion h

/-! Lemmas about the modelled parse routine. -/

theorem take_append_take_drop {α : Type} (l : List α) (m n : Nat) :
    l.take m ++ (l.drop m).take n = l.take (m + n) := by
  induction m generalizing l with
  | zero => simp
  | succ m ih =>
      cases l with
      | nil => simp
      | cons a l =>
          simp only [List.take_succ_cons, List.drop_succ_cons, List.cons_append,
            Nat.succ_add, ih]

theorem hexPairsToBytes_some : ∀ s : List Char, (∀ c ∈ s, isHexDigit c = true) →
    s.length % 2 = 0 → ∃ bs, hexPairsToBytes s = some bs
  | [], _, _ => ⟨[], rfl⟩
  | [c], _, hev => by simp at hev
  | c1 :: c2 :: rest, hhex, hev => by
      have h1 : isHexDigit c1 = true := hhex c1 (by simp)
      have h2 : isHexDigit c2 = true := hhex c2 (by simp)
      have hr : ∀ c ∈ rest, isHexDigit c = true := fun c hc => hhex c (by simp [hc])
      have he : rest.length % 2 = 0 := by simp only [List.length_cons] at hev; omega
      obtain ⟨bs, hbs⟩ := hexPairsToBytes_some rest hr he
      exact ⟨(hexVal c1 * 16 + hexVal c2) :: bs, by simp [hexPairsToBytes, h1, h2, hbs]⟩

theorem shape_length {g1 g2 g3 g4 g5 : List Char}
    (h1 : g1.length = 8) (h2 : g2.length = 4) (h3 : g3.length = 4)
    (h4 : g4.length = 4) (h5 : g5.length = 12) :
    (g1 ++ '-' :: (g2 ++ '-' :: (g3 ++ '-' :: (g4 ++ '-' :: g5)))).length = 36 := by
  simp [List.length_append, List.length_cons, h1, h2, h3, h4, h5]

theorem parse_str_canonical {s : List Char} (h : canonicalHyphenated s) :
    ∃ hex bs, dehyph s = some hex ∧ hexPairsToBytes hex = some bs ∧
      Uuid.parse_str s = Except.ok ⟨bs⟩ := by
  obtain ⟨g1, g2, g3, g4, g5, h1, h2, h3, h4, h5, rfl⟩ := h
  have hlen := shape_length h1.1 h2.1 h3.1 h4.1 h5.1
  have hd := dehyph_of_shape g1 g2 g3 g4 g5 h1.1 h2.1 h3.1 h4.1 h5.1
  have hhex : ∀ c ∈ g1 ++ g2 ++ g3 ++ g4 ++ g5, isHexDigit c = true := by
    intro c hc
    simp only [List.mem_append] at hc
    rcases hc with (((hc | hc) | hc) | hc) | hc
    exacts [h1.2 c hc, h2.2 c hc, h3.2 c hc, h4.2 c hc, h5.2 c hc]
  have hevlen : (g1 ++ g2 ++ g3 ++ g4 ++ g5).length % 2 = 0 := by
    simp [List.length_append, h1.1, h2.1, h3.1, h4.1, h5.1]
  obtain ⟨bs, hbs⟩ := hexPairsToBytes_some _ hhex hevlen
  refine ⟨_, bs, hd, hbs, ?_⟩
  unfold Uuid.parse_str
  rw [hlen, if_neg (by decide : ¬((36 : Nat) = 32)), if_pos (rfl : (36 : Nat) = 36)]
  simp only [hd, hbs]

theorem parse_ok_of_valid {s : List Char} (h : validUuidString s) :
    ∃ u, Uuid.parse_str s = Except.ok u := by
  rcases h with ⟨h32, hhex⟩ | hc
  · obtain ⟨bs, hbs⟩ := hexPairsToBytes_some s hhex (by omega)
    refine ⟨⟨bs⟩, ?_⟩
    unfold Uuid.parse_str
    rw [if_pos h32, hbs]
  · obtain ⟨hex, bs, _, _, hp⟩ := parse_str_canonical hc
    exact ⟨⟨bs⟩, hp⟩

theorem valid_of_parse_ok {s : List Char} {u : Uuid} (h : Uuid.parse_str s = Except.ok u) :
    validUuidString s := by
  unfold Uuid.parse_str at h
  by_cases h32 : s.length = 32
  · rw [if_pos h32] at h
    cases hb : hexPairsToBytes s with
    | none => rw [hb] at h; exact Except.noConfusion h
    | some bs => exact Or.inl ⟨h32, (hexPairsToBytes_sound s bs hb).1⟩
  · rw [if_neg h32] at h
    by_cases h36 : s.length = 36
    · rw [if_pos h36] at h
      cases hd : dehyph s with
      | none => rw [hd] at h; exact Except.noConfusion h
      | some hex =>
          simp only [hd] at h
          cases hb : hexPairsToBytes hex with
          | none => simp only [hb] at h; exact Except.noConfusion h
          | some bs =>
              obtain ⟨g1, g2, g3, g4, g5, h1, h2, h3, h4, h5, hs, hhex⟩ := dehyph_shape hd
              have hall := (hexPairsToBytes_sound hex bs hb).1
              refine Or.inr ⟨g1, g2, g3, g4, g5, ⟨h1, ?_⟩, ⟨h2, ?_⟩, ⟨h3, ?_⟩,
                ⟨h4, ?_⟩, ⟨h5, ?_⟩, hs⟩
              all_goals intro c hc
              · exact hall c (by rw [hhex]; simp [hc])
              · exact hall c (by rw [hhex]; simp [hc])
              · exact hall c (by rw [hhex]; simp [hc])
              · exact hall c (by rw [hhex]; simp [hc])
              · exact hall c (by rw [hhex]; simp [hc])
    · rw [if_neg h36] at h
      exact Except.noConfusion h

/-! Transport lemmas between the adapter entry points and the modelled parse. -/

theorem from_str_isOk (s : List Char) :
    (UUID.from_str s).isOk = (Uuid.parse_str s).isOk := by
  unfold UUID.from_str
  cases Uuid.parse_str s <;> rfl

theorem from_str_ok_iff {s : List Char} {w : UUID} :
    UUID.from_str s = Except.ok w ↔ Uuid.parse_str s = Except.ok w.val := by
  unfold UUID.from_str
  cases hp : Uuid.parse_str s with
  | ok u =>
      constructor
      · intro h; cases h; rfl
      · intro h; injection h with h; rw [h]; rfl
  | error e =>
      constructor
      · intro h; exact Except.noConfusion h
      · intro h; exact Except.noConfusion h

/-- The second string used for concrete ordering checks. -/
def strB : List Char := "00000000-0000-4000-8000-000000000000".toList

/-- The underlying UUID value of the second string. -/
def uuidB : Uuid := ⟨[0, 0, 0, 0, 0, 0, 0x40, 0, 0x80, 0, 0, 0, 0, 0, 0, 0]⟩

/-!
The ten claims.
-/

/-- C1: for every text input `s`, the parse used by `UUID::from_str` (and hence
by `FromParam::from_param`) succeeds iff `s` is a syntactically valid UUID
string per the canonical UUID textual grammar: 32 hexadecimal digits,
optionally grouped with hyphens as `8-4-4-4-12`, case-insensitive; any other
input yields an error. -/
theorem c1_parse_ok_iff_valid_grammar (s : List Char) :
    (UUID.from_str s).isOk = true ↔ validUuidString s := by
  rw [from_str_isOk]
  constructor
  · intro h
    cases hp : Uuid.parse_str s with
    | ok u => exact valid_of_parse_ok hp
    | error e => rw [hp] at h; exact Bool.noConfusion h
  · intro h
    obtain ⟨u, hu⟩ := parse_ok_of_valid h
    rw [hu]; rfl

theorem c1_parse_ok_iff_valid_grammar_witness : (UUID.from_str strA).isOk = true :=
  (c1_parse_ok_iff_valid_grammar strA).mpr
    (Or.inr ⟨"c1aa1e3b".toList, "9614".toList, "4895".toList, "9ebd".toList,
      "705255fa5bc2".toList, by decide, by decide, by decide, by decide, by decide, by decide⟩)

/-- C4: for every input string `s` on which parsing fails,
`FromFormValue::from_form_value` returns an error whose payload is exactly the
original unparsed input `s`, unchanged, not a structured parse error. -/
theorem c4_form_value_error_echo (s : List Char) (h : (UUID.from_str s).isOk = false) :
    UUID.from_form_value s = Except.error s := by
  unfold UUID.from_form_value
  cases hf : UUID.from_str s with
  | ok w => rw [hf] at h; exact Bool.noConfusion h
  | error e => rfl

theorem c4_form_value_error_echo_witness :
    (UUID.from_str ['x']).isOk = false ∧ UUID.from_form_value ['x'] = Except.error ['x'] :=
  ⟨by decide, c4_form_value_error_echo ['x'] (by decide)⟩

/-- C5: for every input on which the underlying parse fails,
`FromParam::from_param` returns exactly the structured `ParseError` produced by
the underlying UUID library, unchanged. -/
theorem c5_param_error_propagation (s : List Char) (e : ParseError)
    (h : Uuid.parse_str s = Except.error e) :
    UUID.from_param s = Except.error e := by
  unfold UUID.from_param UUID.from_str
  rw [h]; rfl

theorem c5_param_error_propagation_witness :
    Uuid.parse_str [] = Except.error (ParseError.InvalidLength 0) ∧
    UUID.from_param [] = Except.error (ParseError.InvalidLength 0) :=
  ⟨by decide, c5_param_error_propagation [] (ParseError.InvalidLength 0) (by decide)⟩

/-- C6: parsing the 37-character string
`c1aa1e3b-9614-4895-9ebd-705255fa5bc2p` fails, and the returned structured
error is a length error citing length 37. -/
theorem c6_invalid_length_37 :
    UUID.from_param ("c1aa1e3b-9614-4895-9ebd-705255fa5bc2p".toList) =
      Except.error (ParseError.InvalidLength 37) := by
  decide

/-- C7: for every string `s`, unwrapping the parsed wrapper via `into_inner`
yields exactly the underlying library's direct parse of `s`; in particular the
two agree on every string on which parsing succeeds. -/
theorem c7_into_inner_unwrap_identity (s : List Char) :
    (UUID.from_str s).map UUID.into_inner = Uuid.parse_str s := by
  unfold UUID.from_str
  cases Uuid.parse_str s <;> rfl

/-- C8: the wrapper parsed from `s` compares equal (via `PartialEq<Uuid>`) to
the underlying library's direct parse of `s`; and in general `w == u` holds
iff the wrapped value of `w` equals `u`. -/
theorem c8_cross_type_equality :
    (∀ (s : List Char) (u : Uuid) (w : UUID),
       Uuid.parse_str s = Except.ok u → UUID.from_str s = Except.ok w →
       UUID.eqUuid w u = true) ∧
    (∀ (w : UUID) (u : Uuid), UUID.eqUuid w u = true ↔ w.val = u) := by
  have hiff : ∀ (w : UUID) (u : Uuid), UUID.eqUuid w u = true ↔ w.val = u := by
    intro w u
    unfold UUID.eqUuid
    exact decide_eq_true_iff
  refine ⟨?_, hiff⟩
  intro s u w hp hw
  rw [from_str_ok_iff] at hw
  rw [hp] at hw
  injection hw with hw
  exact (hiff w u).mpr hw.symm

theorem c8_cross_type_equality_witness : UUID.eqUuid ⟨uuidA⟩ uuidA = true :=
  c8_cross_type_equality.1 strA uuidA ⟨uuidA⟩ (by decide) (by decide)

/-- C9: for any two valid UUID strings `a` and `b`, the wrapper's total-order
comparison of `parse(a)` and `parse(b)` yields the same `Ordering` as comparing
the underlying library's direct parses of `a` and `b`. -/
theorem c9_ordering_consistency (sa sb : List Char) (ua ub : Uuid) (wa wb : UUID)
    (ha : Uuid.parse_str sa = Except.ok ua) (hb : Uuid.parse_str sb = Except.ok ub)
    (hwa : UUID.from_str sa = Except.ok wa) (hwb : UUID.from_str sb = Except.ok wb) :
    UUID.cmp wa wb = Uuid.cmp ua ub := by
  rw [from_str_ok_iff] at hwa hwb
  rw [ha] at hwa
  rw [hb] at hwb
  injection hwa with hwa
  injection hwb with hwb
  unfold UUID.cmp
  rw [← hwa, ← hwb]

theorem c9_ordering_consistency_witness :
    UUID.cmp ⟨uuidA⟩ ⟨uuidB⟩ = Uuid.cmp uuidA uuidB :=
  c9_ordering_consistency strA strB uuidA uuidB ⟨uuidA⟩ ⟨uuidB⟩
    (by decide) (by decide) (by decide) (by decide)

/-- C10: the three parsing entry points agree — for every input string `s`,
`from_param`, `from_form_value` and `from_str` either all succeed with equal
UUID values or all fail, every entry point delegating to the same underlying
parse. -/
theorem c10_entry_points_agree (s : List Char) :
    UUID.from_param s = UUID.from_str s ∧
    ((UUID.from_form_value s).isOk = (UUID.from_str s).isOk) ∧
    (∀ w : UUID, UUID.from_form_value s = Except.ok w ↔ UUID.from_str s = Except.ok w) := by
  refine ⟨rfl, ?_, ?_⟩
  · unfold UUID.from_form_value
    cases UUID.from_str s <;> rfl
  · intro w
    unfold UUID.from_form_value
    cases hf : UUID.from_str s with
    | ok w' =>
        rw [show Except.mapError (fun _ : ParseError => s) (Except.ok w') = Except.ok w' from rfl]
        constructor
        · intro h; injection h with h; rw [h]
        · intro h; injection h with h; rw [h]
    | error e =>
        constructor
        · intro h; exact Except.noConfusion h
        · intro h; exact Except.noConfusion h

theorem c10_entry_points_agree_witness : UUID.from_param strA = UUID.from_str strA :=
  (c10_entry_points_agree strA).1

/-- C2: for every valid wrapped UUID value `x`, parsing the rendered text of
`x` succeeds and the result equals `x`: `parse(to_text(x)) == x`. -/
theorem c2_parse_of_render_roundtrip (u : UUID) (h : ValidUuid u.val) :
    UUID.from_str (UUID.to_string u) = Except.ok u := by
  obtain ⟨⟨bs⟩⟩ := u
  obtain ⟨hlen, hlt⟩ := h
  simp only [UUID.to_string, Uuid.to_string] at *
  have l1 : (bytesToHex (bs.take 4)).length = 8 := by
    rw [bytesToHex_length]; simp [List.length_take, hlen]
  have l2 : (bytesToHex ((bs.drop 4).take 2)).length = 4 := by
    rw [bytesToHex_length]; simp [List.length_take, List.length_drop, hlen]
  have l3 : (bytesToHex ((bs.drop 6).take 2)).length = 4 := by
    rw [bytesToHex_length]; simp [List.length_take, List.length_drop, hlen]
  have l4 : (bytesToHex ((bs.drop 8).take 2)).length = 4 := by
    rw [bytesToHex_length]; simp [List.length_take, List.length_drop, hlen]
  have l5 : (bytesToHex (bs.drop 10)).length = 12 := by
    rw [bytesToHex_length]; simp [List.length_drop, hlen]
  have hlen36 := shape_length l1 l2 l3 l4 l5
  have hd := dehyph_of_shape _ _ _ _ _ l1 l2 l3 l4 l5
  have hjoin : bytesToHex (bs.take 4) ++ bytesToHex ((bs.drop 4).take 2) ++
      bytesToHex ((bs.drop 6).take 2) ++ bytesToHex ((bs.drop 8).take 2) ++
      bytesToHex (bs.drop 10) = bytesToHex bs := by
    rw [← bytesToHex_append, ← bytesToHex_append, ← bytesToHex_append, ← bytesToHex_append]
    have e1 : bs.take 4 ++ (bs.drop 4).take 2 = bs.take 6 := by
      rw [take_append_take_drop]
    have e2 : bs.take 6 ++ (bs.drop 6).take 2 = bs.take 8 := by
      rw [take_append_take_drop]
    have e3 : bs.take 8 ++ (bs.drop 8).take 2 = bs.take 10 := by
      rw [take_append_take_drop]
    rw [e1, e2, e3, List.take_append_drop]
  have hcomplete := hexPairsToBytes_complete bs hlt
  unfold UUID.from_str Uuid.parse_str
  rw [hlen36, if_neg (by decide : ¬((36 : Nat) = 32)), if_pos (rfl : (36 : Nat) = 36)]
  simp only [hd, hjoin, hcomplete]
  rfl

theorem c2_parse_of_render_roundtrip_witness :
    ValidUuid uuidA ∧ UUID.from_str (UUID.to_string ⟨uuidA⟩) = Except.ok ⟨uuidA⟩ :=
  ⟨by decide, c2_parse_of_render_roundtrip ⟨uuidA⟩ (by decide)⟩

theorem to_string_groups (b1 b2 b3 b4 b5 : List Nat)
    (l1 : b1.length = 4) (l2 : b2.length = 2) (l3 : b3.length = 2)
    (l4 : b4.length = 2) (l5 : b5.length = 6) :
    Uuid.to_string ⟨b1 ++ (b2 ++ (b3 ++ (b4 ++ b5)))⟩ =
      bytesToHex b1 ++ '-' :: (bytesToHex b2 ++ '-' :: (bytesToHex b3 ++ '-' ::
        (bytesToHex b4 ++ '-' :: bytesToHex b5))) := by
  have a6 : b1 ++ (b2 ++ (b3 ++ (b4 ++ b5))) = (b1 ++ b2) ++ (b3 ++ (b4 ++ b5)) := by
    simp [List.append_assoc]
  have a8 : b1 ++ (b2 ++ (b3 ++ (b4 ++ b5))) = ((b1 ++ b2) ++ b3) ++ (b4 ++ b5) := by
    simp [List.append_assoc]
  have a10 : b1 ++ (b2 ++ (b3 ++ (b4 ++ b5))) = (((b1 ++ b2) ++ b3) ++ b4) ++ b5 := by
    simp [List.append_assoc]
  have d4 : (b1 ++ (b2 ++ (b3 ++ (b4 ++ b5)))).drop 4 = b2 ++ (b3 ++ (b4 ++ b5)) :=
    List.drop_left' l1
  have d6 : (b1 ++ (b2 ++ (b3 ++ (b4 ++ b5)))).drop 6 = b3 ++ (b4 ++ b5) := by
    rw [a6]; exact List.drop_left' (by simp [List.length_append, l1, l2])
  have d8 : (b1 ++ (b2 ++ (b3 ++ (b4 ++ b5)))).drop 8 = b4 ++ b5 := by
    rw [a8]; exact List.drop_left' (by simp [List.length_append, l1, l2, l3])
  have d10 : (b1 ++ (b2 ++ (b3 ++ (b4 ++ b5)))).drop 10 = b5 := by
    rw [a10]; exact List.drop_left' (by simp [List.length_append, l1, l2, l3, l4])
  simp only [Uuid.to_string]
  rw [List.take_left' l1, d4, List.take_left' l2, d6, List.take_left' l3, d8,
    List.take_left' l4, d10]

/-- C3: for every syntactically valid UUID string `s` in canonical hyphenated
form, rendering the parsed value yields `s` lowercased with its hyphen
grouping preserved, and the rendering is the 36-character lowercase
hyphenated form. -/
theorem c3_render_of_parse_normalizes (s : List Char) (h : canonicalHyphenated s) :
    ∃ w : UUID, UUID.from_str s = Except.ok w ∧
      UUID.to_string w = s.map Char.toLower ∧ (UUID.to_string w).length = 36 := by
  obtain ⟨hex, bs, hd, hb, hp⟩ := parse_str_canonical h
  obtain ⟨g1, g2, g3, g4, g5, h1, h2, h3, h4, h5, hs, hhexeq⟩ := dehyph_shape hd
  have hra : hex = g1 ++ (g2 ++ (g3 ++ (g4 ++ g5))) := by
    rw [hhexeq]; simp [List.append_assoc]
  have hb' : hexPairsToBytes (g1 ++ (g2 ++ (g3 ++ (g4 ++ g5)))) = some bs := by
    rw [← hra]; exact hb
  obtain ⟨b1, r1, hb1, hbr1, hbs1, hl1⟩ :=
    hexPairsToBytes_append_inv g1 _ bs (by rw [h1]) hb'
  obtain ⟨b2, r2, hb2, hbr2, hbs2, hl2⟩ :=
    hexPairsToBytes_append_inv g2 _ r1 (by rw [h2]) hbr1
  obtain ⟨b3, r3, hb3, hbr3, hbs3, hl3⟩ :=
    hexPairsToBytes_append_inv g3 _ r2 (by rw [h3]) hbr2
  obtain ⟨b4, b5, hb4, hb5, hbs4, hl4⟩ :=
    hexPairsToBytes_append_inv g4 g5 r3 (by rw [h4]) hbr3
  have lb1 : b1.length = 4 := by omega
  have lb2 : b2.length = 2 := by omega
  have lb3 : b3.length = 2 := by omega
  have lb4 : b4.length = 2 := by omega
  have lb5 : b5.length = 6 := by
    have hg5 := (hexPairsToBytes_sound g5 b5 hb5).2.1
    omega
  have hbsall : bs = b1 ++ (b2 ++ (b3 ++ (b4 ++ b5))) := by
    rw [hbs1, hbs2, hbs3, hbs4]
  have e1 : bytesToHex b1 = g1.map Char.toLower := (hexPairsToBytes_sound g1 b1 hb1).2.2.2
  have e2 : bytesToHex b2 = g2.map Char.toLower := (hexPairsToBytes_sound g2 b2 hb2).2.2.2
  have e3 : bytesToHex b3 = g3.map Char.toLower := (hexPairsToBytes_sound g3 b3 hb3).2.2.2
  have e4 : bytesToHex b4 = g4.map Char.toLower := (hexPairsToBytes_sound g4 b4 hb4).2.2.2
  have e5 : bytesToHex b5 = g5.map Char.toLower := (hexPairsToBytes_sound g5 b5 hb5).2.2.2
  have hmain : UUID.to_string ⟨⟨bs⟩⟩ = s.map Char.toLower := by
    show Uuid.to_string ⟨bs⟩ = s.map Char.toLower
    rw [hbsall, to_string_groups b1 b2 b3 b4 b5 lb1 lb2 lb3 lb4 lb5, hs]
    simp only [List.map_append, List.map_cons, e1, e2, e3, e4, e5,
      show Char.toLower '-' = '-' from rfl]
  refine ⟨⟨⟨bs⟩⟩, ?_, hmain, ?_⟩
  · rw [from_str_ok_iff]
    exact hp
  · rw [hmain, List.length_map, hs]
    exact shape_length h1 h2 h3 h4 h5

theorem c3_render_of_parse_normalizes_witness :
    canonicalHyphenated strA ∧
    ∃ w : UUID, UUID.from_str strA = Except.ok w ∧
      UUID.to_string w = strA.map Char.toLower ∧ (UUID.to_string w).length = 36 := by
  have hcan : canonicalHyphenated strA :=
    ⟨"c1aa1e3b".toList, "9614".toList, "4895".toList, "9ebd".toList, "705255fa5bc2".toList,
      by decide, by decide, by decide, by decide, by decide, by decide⟩
  exact ⟨hcan, c3_render_of_parse_normalizes strA hcan⟩

end RocketUuid
